import Mathlib

/-!
Shallow embedding of the path-autocomplete ("destination picker") fields in
`src/js/aria2_downloader.js` (which also holds the PathUploader copy of the
widget) and `src/js/hf_hub_downloader.js`.

The Aria2 and HF-hub copies normalize a typed path with
`raw.replace(/\\/g, "/").replace(/\/{2,}/g, "/")`; the PathUploader copy uses
`normalizePath = (p) => (p || "").replace(/\\/g, "/")` and `joinPath`.  The
suggestion machinery (`fetchChildren`, `scheduleFetch`, the keydown / blur /
focus handlers and the outside-click handler) is embedded below as pure
functions and as a step relation on the widget's mutable state.
-/

/-- The character-level action of the JS replace of every backslash by a
forward slash: `'\\'` maps to `'/'`, all other characters are unchanged. -/
def backslashToSlash (c : Char) : Char :=
  if c = '\\' then '/' else c

/-- Collapse every run of two or more consecutive `'/'` characters into a
single `'/'`: the action of the JS global regex replace of `\/{2,}` by `/`.
A `'/'` standing directly before another `'/'` in the (already collapsed)
tail is merged into it, so each maximal run of slashes ends up as one. -/
def collapseSlashes : List Char → List Char
  | [] => []
  | c :: rest =>
    let res := collapseSlashes rest
    if c = '/' ∧ res.head? = some '/' then res else c :: res

/-- Whether a character list contains two consecutive `'/'` characters. -/
def listHasDoubleSlash : List Char → Bool
  | c₁ :: c₂ :: rest =>
    if c₁ = '/' ∧ c₂ = '/' then true else listHasDoubleSlash (c₂ :: rest)
  | _ => false

/-- The full normalization used by the Aria2 and HF-hub copies of the field:
`raw.replace(/\\/g, "/").replace(/\/{2,}/g, "/")`. -/
def normalizeSlashes (s : String) : String :=
  ⟨collapseSlashes (s.data.map backslashToSlash)⟩

/-- The PathUploader copy's normalization:
`const normalizePath = (p) => (p || "").replace(/\\/g, "/")` — backslash
conversion only, no collapsing of repeated slashes. -/
def normalizePath (s : String) : String :=
  ⟨s.data.map backslashToSlash⟩

/-- Whether a string contains a backslash character. -/
def hasBackslash (s : String) : Bool :=
  s.data.any (fun c => c == '\\')

/-- Whether a string contains two consecutive forward slashes. -/
def hasDoubleSlash (s : String) : Bool :=
  listHasDoubleSlash s.data

theorem backslashToSlash_ne (c : Char) : backslashToSlash c ≠ '\\' := by
  unfold backslashToSlash
  split
  · decide
  · assumption

theorem not_mem_map_backslashToSlash (l : List Char) :
    '\\' ∉ l.map backslashToSlash := by
  intro h
  rcases List.mem_map.mp h with ⟨c, _, hc⟩
  exact backslashToSlash_ne c hc

theorem map_backslashToSlash_of_not_mem (l : List Char) (h : '\\' ∉ l) :
    l.map backslashToSlash = l := by
  induction l with
  | nil => rfl
  | cons c t ih =>
    simp only [List.mem_cons, not_or] at h
    have hc : ¬ c = '\\' := fun e => h.1 e.symm
    simp only [List.map_cons, ih h.2]
    simp [backslashToSlash, hc]

theorem collapseSlashes_cons_eq (c : Char) (l : List Char) :
    collapseSlashes (c :: l) =
      if c = '/' ∧ (collapseSlashes l).head? = some '/' then collapseSlashes l
      else c :: collapseSlashes l := rfl

theorem collapseSlashes_cons (c : Char) (l : List Char) :
    ∃ t, collapseSlashes (c :: l) = c :: t := by
  rw [collapseSlashes_cons_eq]
  by_cases h : c = '/' ∧ (collapseSlashes l).head? = some '/'
  · obtain ⟨tail, htail⟩ : ∃ tail, collapseSlashes l = '/' :: tail := by
      cases hres : collapseSlashes l with
      | nil => rw [hres] at h; simp at h
      | cons d t =>
        rw [hres] at h
        simp only [List.head?] at h
        exact ⟨t, by rw [Option.some_inj.mp h.2]⟩
    exact ⟨tail, by rw [if_pos h, htail, h.1]⟩
  · exact ⟨collapseSlashes l, by rw [if_neg h]⟩

theorem listHasDoubleSlash_collapseSlashes (l : List Char) :
    listHasDoubleSlash (collapseSlashes l) = false := by
  induction l with
  | nil => rfl
  | cons c rest ih =>
    rw [collapseSlashes_cons_eq]
    by_cases h : c = '/' ∧ (collapseSlashes rest).head? = some '/'
    · simpa only [if_pos h] using ih
    · rw [if_neg h]
      cases hres : collapseSlashes rest with
      | nil => rfl
      | cons d t =>
        have hnd : ¬ (c = '/' ∧ d = '/') := by
          intro hcd
          exact h ⟨hcd.1, by rw [hres]; simp [hcd.2]⟩
        rw [listHasDoubleSlash, if_neg hnd, ← hres]
        exact ih

theorem collapseSlashes_idem (l : List Char) :
    collapseSlashes (collapseSlashes l) = collapseSlashes l := by
  induction l with
  | nil => rfl
  | cons c rest ih =>
    rw [collapseSlashes_cons_eq]
    by_cases h : c = '/' ∧ (collapseSlashes rest).head? = some '/'
    · simpa only [if_pos h] using ih
    · rw [if_neg h, collapseSlashes_cons_eq, ih, if_neg h]

theorem collapseSlashes_not_mem (l : List Char) (h : '\\' ∉ l) :
    '\\' ∉ collapseSlashes l := by
  induction l with
  | nil => simp [collapseSlashes]
  | cons c rest ih =>
    simp only [List.mem_cons, not_or] at h
    rw [collapseSlashes_cons_eq]
    by_cases hc : c = '/' ∧ (collapseSlashes rest).head? = some '/'
    · simpa only [if_pos hc] using ih h.2
    · simp only [if_neg hc, List.mem_cons, not_or]
      exact ⟨h.1, ih h.2⟩

theorem hasBackslash_eq_false_of_not_mem {s : String} (h : '\\' ∉ s.data) :
    hasBackslash s = false := by
  unfold hasBackslash
  rw [Bool.eq_false_iff]
  intro hc
  rcases List.any_eq_true.mp hc with ⟨c, hm, he⟩
  rw [beq_iff_eq] at he
  exact h (he ▸ hm)

theorem normalizeSlashes_data (s : String) :
    (normalizeSlashes s).data = collapseSlashes (s.data.map backslashToSlash) := rfl

theorem normalizeSlashes_no_backslash (s : String) :
    hasBackslash (normalizeSlashes s) = false :=
  hasBackslash_eq_false_of_not_mem
    (collapseSlashes_not_mem _ (not_mem_map_backslashToSlash s.data))

theorem normalizeSlashes_no_doubleSlash (s : String) :
    hasDoubleSlash (normalizeSlashes s) = false :=
  listHasDoubleSlash_collapseSlashes _

theorem normalizeSlashes_idem (s : String) :
    normalizeSlashes (normalizeSlashes s) = normalizeSlashes s := by
  unfold normalizeSlashes
  have hnb : '\\' ∉ collapseSlashes (s.data.map backslashToSlash) :=
    collapseSlashes_not_mem _ (not_mem_map_backslashToSlash s.data)
  congr 1
  rw [show (String.mk (collapseSlashes (s.data.map backslashToSlash))).data
        = collapseSlashes (s.data.map backslashToSlash) from rfl]
  rw [map_backslashToSlash_of_not_mem _ hnb, collapseSlashes_idem]

theorem normalizePath_no_backslash (s : String) :
    hasBackslash (normalizePath s) = false :=
  hasBackslash_eq_false_of_not_mem (not_mem_map_backslashToSlash s.data)

theorem normalizePath_idem (s : String) :
    normalizePath (normalizePath s) = normalizePath s := by
  unfold normalizePath
  congr 1
  exact map_backslashToSlash_of_not_mem _ (not_mem_map_backslashToSlash s.data)

/-- The Aria2 copy's `destInput` "input" handler (caret part), embedded as a
pure function from the raw text and caret offset to the new text and caret:
`normalized = raw.replace(/\\/g,"/").replace(/\/{2,}/g,"/")`;
when `normalized !== raw` the value is rewritten and the caret moves to
`Math.max(0, prevStart + (normalized.length - raw.length))`. -/
def destInputOnInput (raw : String) (caret : Nat) : String × Nat :=
  let normalized := normalizeSlashes raw
  if normalized ≠ raw then
    let delta : Int := (normalized.length : Int) - (raw.length : Int)
    (normalized, (max 0 ((caret : Int) + delta)).toNat)
  else
    (raw, caret)

/-- C3 counterexample: the PathUploader copy's normalization
(`normalizePath`, backslash conversion only) maps `"a\/b"` to `"a//b"`,
which contains a doubled slash — refuting the claim that in every copy of
the component the normalized path contains no doubled slashes. -/
theorem C3_counterexample :
    normalizePath "a\\/b" = "a//b" ∧
    hasDoubleSlash (normalizePath "a\\/b") = true := by
  constructor <;> decide

/-- C3 (amended): the Aria2/HF-hub normalization (`normalizeSlashes`)
produces no backslashes and no doubled slashes and is idempotent; the
PathUploader copy's `normalizePath` produces no backslashes and is
idempotent, but does not remove doubled slashes. -/
theorem C3_normalization (s : String) :
    hasBackslash (normalizeSlashes s) = false ∧
    hasDoubleSlash (normalizeSlashes s) = false ∧
    normalizeSlashes (normalizeSlashes s) = normalizeSlashes s ∧
    hasBackslash (normalizePath s) = false ∧
    normalizePath (normalizePath s) = normalizePath s :=
  ⟨normalizeSlashes_no_backslash s, normalizeSlashes_no_doubleSlash s,
   normalizeSlashes_idem s, normalizePath_no_backslash s, normalizePath_idem s⟩

/-- C7: when normalization changes the raw input, the input handler rewrites
the field to the normalized text, and the caret afterwards equals the
original caret plus the length delta the normalization introduced
(`normalized.length - raw.length`), clamped to be at least `0`. -/
theorem C7_caret_after_normalization (raw : String) (caret : Nat)
    (h : normalizeSlashes raw ≠ raw) :
    (destInputOnInput raw caret).1 = normalizeSlashes raw ∧
    ((destInputOnInput raw caret).2 : Int) =
      max 0 ((caret : Int) +
        (((normalizeSlashes raw).length : Int) - ((raw).length : Int))) := by
  unfold destInputOnInput
  rw [if_pos h]
  refine ⟨rfl, ?_⟩
  exact Int.toNat_of_nonneg (le_max_left 0 _)

/-- C7 witness: for raw text `"a//b"` (normalized to `"a/b"`) with the caret
at offset 4, the caret ends at `max 0 (4 + (3 - 4)) = 3`. -/
theorem C7_witness :
    (destInputOnInput "a//b" 4).1 = normalizeSlashes "a//b" ∧
    ((destInputOnInput "a//b" 4).2 : Int) =
      max 0 ((4 : Int) +
        (((normalizeSlashes "a//b").length : Int) - (("a//b" : String).length : Int))) :=
  C7_caret_after_normalization "a//b" 4 (by decide)

/-- One suggestion row as built by `fetchChildren`:
`{ name: f.name, path: ... }`. -/
structure Entry where
  name : String
  path : String
deriving DecidableEq, Repr

/-- A parsed `/az/listdir` JSON body: `ok`, `root` (the empty string models an
absent or empty — falsy — `root`), and `folders`, where `none` models a value
that is not an array and the list holds the folder names `f.name`. -/
structure ListDirData where
  ok : Bool
  root : String
  folders : Option (List String)
deriving DecidableEq, Repr

/-- The outcome of `api.fetchApi("/az/listdir?...")` followed by
`resp.json()`: either a thrown error (network failure or unparsable body), or
a parsed body together with the HTTP status code.  `none` for the body models
JSON `null`. -/
inductive ListDirResponse where
  | fetchError
  | success (status : Nat) (data : Option ListDirData)
deriving DecidableEq, Repr

/-- Models JS `String.prototype.trim()`: whitespace removed from both ends. -/
def jsTrim (s : String) : String :=
  ⟨((s.data.dropWhile Char.isWhitespace).reverse.dropWhile Char.isWhitespace).reverse⟩

/-- The `fetchChildren` of the Aria2 and HF-hub copies, as a pure function of
the input text at call time, the response, and whether
`document.activeElement === destInput` when the response arrives.  Returns the
new `items`, `active`, and dropdown visibility (`display === "block"`).
If the trimmed text is empty the function clears and returns before any
request is made.  Note the handler never inspects the HTTP `status`; failures
are detected only from the thrown error or the parsed body
(`data && data.ok && Array.isArray(data.folders)`), and the dropdown is shown
only when the input still has focus. -/
def fetchChildren (text : String) (resp : ListDirResponse) (focused : Bool) :
    List Entry × Int × Bool :=
  let raw := jsTrim text
  if raw = "" then ([], -1, false)
  else
    let val := normalizeSlashes raw
    let items : List Entry :=
      match resp with
      | .fetchError => []
      | .success _ data =>
        match data with
        | some d =>
          if d.ok then
            match d.folders with
            | some fs =>
              fs.map (fun n =>
                ⟨n, normalizeSlashes ((if d.root = "" then val else d.root) ++ "/" ++ n)⟩)
            | none => []
          else []
        | none => []
    (items, if items.isEmpty then -1 else 0, focused && !items.isEmpty)

/-- The response shapes that `fetchChildren` treats as failures: a thrown
fetch/parse error, a `null` body, a body whose `ok` is not truthy, or a body
whose `folders` is not an array.  (The HTTP status is deliberately absent
here: the code never consults it.) -/
def failureShape : ListDirResponse → Bool
  | .fetchError => true
  | .success _ none => true
  | .success _ (some d) => !d.ok || d.folders.isNone

/-- C4 counterexample: `fetchChildren` never consults the HTTP status, so a
non-2xx response (here status 500) whose body is a well-formed
`{ok:true, folders:[...]}` populates the suggestions and shows the overlay —
refuting the claim that a non-2xx HTTP status results in an empty suggestion
set with the overlay hidden. -/
theorem C4_counterexample :
    fetchChildren "x" (.success 500 (some ⟨true, "", some ["a"]⟩)) true
      = ([⟨"a", "x/a"⟩], 0, true) := by
  decide

/-- C4 (amended): every failed lookup the code can observe — a thrown
network/parse error, a `null` body, a body without truthy `ok`, or `folders`
not an array — yields an empty suggestion list, `active = -1` and a hidden
overlay, with no exception escaping (the handler is total); the HTTP status
code itself is never consulted, so a failure status with a well-formed `ok`
body is treated as success. -/
theorem C4_failures_empty (text : String) (resp : ListDirResponse) (focused : Bool)
    (h : failureShape resp = true) :
    fetchChildren text resp focused = ([], -1, false) := by
  unfold fetchChildren
  by_cases hraw : jsTrim text = ""
  · rw [if_pos hraw]
  · rw [if_neg hraw]
    cases resp with
    | fetchError => simp
    | success status data =>
      cases data with
      | none => simp
      | some d =>
        cases hok : d.ok with
        | false => simp [hok]
        | true =>
          cases hf : d.folders with
          | none => simp [hok, hf]
          | some fs => simp [failureShape, hok, hf] at h

/-- C4 witness: a body with `ok:false` on a 200 response yields empty
suggestions, `active = -1` and a hidden overlay. -/
theorem C4_witness :
    fetchChildren "x" (.success 200 (some ⟨false, "", some ["a"]⟩)) true
      = ([], -1, false) :=
  C4_failures_empty "x" (.success 200 (some ⟨false, "", some ["a"]⟩)) true (by decide)

/-- C8: on a successful lookup (body has `ok:true` and a `folders` array) of
a non-empty trimmed text, the suggestions become exactly the response's
folder names, in server order, each mapped to an entry whose path is
`(root || normalizedText) + "/" + name` with the normalization re-applied;
`active` becomes `0` exactly when the result is non-empty, and the overlay
shows if the input still has focus. -/
theorem C8_success_mapping (text : String) (status : Nat) (root : String)
    (fs : List String) (focused : Bool) (h : jsTrim text ≠ "") :
    fetchChildren text (.success status (some ⟨true, root, some fs⟩)) focused =
      (fs.map (fun n =>
         ⟨n, normalizeSlashes
           ((if root = "" then normalizeSlashes (jsTrim text) else root) ++ "/" ++ n)⟩),
       if fs.isEmpty then -1 else 0,
       focused && !fs.isEmpty) := by
  unfold fetchChildren
  rw [if_neg h]
  cases fs with
  | nil => simp
  | cons a t => simp

/-- C8 witness (the spec's scenario): typing `"C:\Users\me"` normalizes the
field to `"C:/Users/me"`; a response with folders `Downloads` and `Desktop`
maps them in order to paths `"C:/Users/me/Downloads"` and
`"C:/Users/me/Desktop"`, with `active = 0` and the overlay shown. -/
theorem C8_witness :
    normalizeSlashes "C:\\Users\\me" = "C:/Users/me" ∧
    fetchChildren "C:/Users/me"
        (.success 200 (some ⟨true, "", some ["Downloads", "Desktop"]⟩)) true =
      ([⟨"Downloads", "C:/Users/me/Downloads"⟩, ⟨"Desktop", "C:/Users/me/Desktop"⟩],
       0, true) := by
  refine ⟨by decide, ?_⟩
  rw [C8_success_mapping "C:/Users/me" 200 "" ["Downloads", "Desktop"] true (by decide)]
  decide

/-- The mutable state of one destination field in the Aria2 and HF-hub
copies: the `items` and `active` locals, the dropdown visibility
(`dropdown.style.display === "block"`), whether a debounce timer is armed and
neither cleared nor fired, whether the input has focus
(`document.activeElement === destInput`), the input element's text and the
persisted `this.properties.dest_dir`. -/
structure FieldState where
  items : List Entry
  active : Int
  display : Bool
  timerPending : Bool
  focused : Bool
  text : String
  prop : String
deriving DecidableEq, Repr

/-- The events the field's handlers react to.  `response` is the resumption
of `fetchChildren` after its `await`s, carrying the text it captured when the
request was issued; `timerFire` is the debounce timer elapsing; `rootSeed` is
the resumption of the focus/startup root prefill with the server's `root`;
`hover` and `rowClick` are the `mouseenter`/`mousedown` listeners of the row
at index `idx`. -/
inductive FieldEvent where
  | inputChange (raw : String)
  | timerFire
  | response (reqText : String) (resp : ListDirResponse)
  | arrowDown
  | arrowUp
  | enterKey
  | escapeKey
  | blurEvent
  | outsideClick
  | hover (idx : Nat)
  | rowClick (idx : Nat)
  | focusGained
  | rootSeed (root : String)
deriving DecidableEq, Repr

/-- The shared body of the Enter branch and the row `mousedown` listener:
`chosen = it.path.replace(/\\/g,"/").replace(/\/{2,}/g,"/")`, the text and
the persisted property are set to `chosen`, the list is cleared, the
dropdown hidden, and `scheduleFetch()` arms a new timer. -/
def selectEntry (st : FieldState) (it : Entry) : FieldState :=
  let chosen := normalizeSlashes it.path
  { st with text := chosen, prop := chosen, items := [], active := -1,
            display := false, timerPending := true }

/-- One step of the field: the handler bodies of the Aria2/HF-hub copies.
The keydown branches run only under the guard
`dropdown.style.display === "block" && items.length`; Enter additionally
requires `active >= 0`.  `blur` clears the timer, the list and the overlay
and drops focus; the Escape branch clears the list and overlay but leaves
the timer untouched; the document-level `pointerdown` handler mirrors blur
without the focus change.  `items[active]` out of range would throw in JS;
the impossible branch returns the state unchanged. -/
def step (e : FieldEvent) (st : FieldState) : FieldState :=
  match e with
  | .inputChange raw =>
    let normalized := normalizeSlashes raw
    { st with text := normalized, prop := normalized, timerPending := true }
  | .timerFire => { st with timerPending := false }
  | .response reqText resp =>
    let out := fetchChildren reqText resp st.focused
    { st with items := out.1, active := out.2.1, display := out.2.2 }
  | .arrowDown =>
    if st.display = true ∧ st.items ≠ [] then
      { st with active := (st.active + 1) % (st.items.length : Int) }
    else st
  | .arrowUp =>
    if st.display = true ∧ st.items ≠ [] then
      { st with active := (st.active - 1 + st.items.length) % (st.items.length : Int) }
    else st
  | .enterKey =>
    if st.display = true ∧ st.items ≠ [] ∧ 0 ≤ st.active then
      match st.items.get? st.active.toNat with
      | some it => selectEntry st it
      | none => st
    else st
  | .escapeKey =>
    if st.display = true ∧ st.items ≠ [] then
      { st with display := false, items := [], active := -1 }
    else st
  | .blurEvent =>
    { st with timerPending := false, items := [], active := -1,
              display := false, focused := false }
  | .outsideClick =>
    { st with timerPending := false, items := [], active := -1, display := false }
  | .hover idx =>
    if idx < st.items.length then { st with active := (idx : Int) } else st
  | .rowClick idx =>
    match st.items.get? idx with
    | some it => selectEntry st it
    | none => st
  | .focusGained => { st with focused := true, timerPending := true }
  | .rootSeed root =>
    if st.prop = "" then
      let r := normalizePath root
      { st with text := r, prop := r, timerPending := true }
    else st

/-- Run a list of events from a state, oldest first. -/
def run (es : List FieldEvent) (st : FieldState) : FieldState :=
  es.foldl (fun s e => step e s) st

/-- The field as first created: empty suggestion list, no highlight, hidden
dropdown, no timer, unfocused, text and property from the persisted
`dest_dir`. -/
def initField (persisted : String) : FieldState :=
  ⟨[], -1, false, false, false, persisted, persisted⟩

/-- States the field can actually be in: the initial state and everything
its handlers can produce from it. -/
inductive Reachable : FieldState → Prop where
  | init (persisted : String) : Reachable (initField persisted)
  | next (e : FieldEvent) {st : FieldState} : Reachable st → Reachable (step e st)

/-- The C1 invariant: `active` is `-1` exactly when `items` is empty and
otherwise a valid index into `items`. -/
def ActiveInv (st : FieldState) : Prop :=
  (st.items = [] → st.active = -1) ∧
  (st.items ≠ [] → 0 ≤ st.active ∧ st.active < st.items.length)

theorem fetchChildren_eq (text : String) (resp : ListDirResponse) (focused : Bool) :
    ∃ items : List Entry,
      fetchChildren text resp focused =
        (items, if items.isEmpty then -1 else 0, focused && !items.isEmpty) := by
  unfold fetchChildren
  by_cases hraw : jsTrim text = ""
  · rw [if_pos hraw]
    exact ⟨[], by simp⟩
  · rw [if_neg hraw]
    exact ⟨_, rfl⟩

theorem selectEntry_activeInv (st : FieldState) (it : Entry) :
    ActiveInv (selectEntry st it) :=
  ⟨fun _ => rfl, fun hne => absurd rfl hne⟩

theorem step_preserves_activeInv (e : FieldEvent) (st : FieldState)
    (h : ActiveInv st) : ActiveInv (step e st) := by
  cases e with
  | inputChange raw => exact h
  | timerFire => exact h
  | response reqText resp =>
    obtain ⟨items, heq⟩ := fetchChildren_eq reqText resp st.focused
    simp only [step, heq]
    cases items with
    | nil => exact ⟨fun _ => rfl, fun hne => absurd rfl hne⟩
    | cons a t =>
      refine ⟨fun h0 => by simp at h0, fun _ => ?_⟩
      simp
  | arrowDown =>
    simp only [step]
    split
    · next hg =>
      refine ⟨fun h0 => absurd h0 hg.2, fun _ => ?_⟩
      have hlen : 0 < (st.items.length : Int) := by
        have := List.length_pos.mpr hg.2
        exact_mod_cast this
      exact ⟨Int.emod_nonneg _ (by omega), Int.emod_lt_of_pos _ hlen⟩
    · exact h
  | arrowUp =>
    simp only [step]
    split
    · next hg =>
      refine ⟨fun h0 => absurd h0 hg.2, fun _ => ?_⟩
      have hlen : 0 < (st.items.length : Int) := by
        have := List.length_pos.mpr hg.2
        exact_mod_cast this
      exact ⟨Int.emod_nonneg _ (by omega), Int.emod_lt_of_pos _ hlen⟩
    · exact h
  | enterKey =>
    simp only [step]
    split
    · next hg =>
      cases hget : st.items.get? st.active.toNat with
      | some it =>
        simp only [hget]
        exact selectEntry_activeInv st it
      | none =>
        simp only [hget]
        exact h
    · exact h
  | escapeKey =>
    simp only [step]
    split
    · exact ⟨fun _ => rfl, fun hne => absurd rfl hne⟩
    · exact h
  | blurEvent => exact ⟨fun _ => rfl, fun hne => absurd rfl hne⟩
  | outsideClick => exact ⟨fun _ => rfl, fun hne => absurd rfl hne⟩
  | hover idx =>
    simp only [step]
    split
    · next hidx =>
      refine ⟨fun h0 => ?_, fun _ => ?_⟩
      · rw [h0] at hidx
        simp at hidx
      · refine ⟨Int.ofNat_nonneg idx, ?_⟩
        show (idx : Int) < (st.items.length : Int)
        exact_mod_cast hidx
    · exact h
  | rowClick idx =>
    simp only [step]
    cases hget : st.items.get? idx with
    | some it =>
      simp only [hget]
      exact selectEntry_activeInv st it
    | none =>
      simp only [hget]
      exact h
  | focusGained => exact h
  | rootSeed root =>
    simp only [step]
    split
    · exact h
    · exact h

/-- C1: for every reachable state of the field, `active` is `-1` exactly when
`items` is empty and otherwise a valid index into `items`; every handler
(lookup completion, arrow-key navigation, Enter and mouse selection, Escape,
outside click, blur, typing, focus, seeding) preserves this. -/
theorem C1_active_invariant (st : FieldState) (h : Reachable st) :
    ActiveInv st := by
  induction h with
  | init persisted => exact ⟨fun _ => rfl, fun hne => absurd rfl hne⟩
  | next e hst ih => exact step_preserves_activeInv e _ ih

/-- C1 witness: the concrete reachable state after focus, typing `"C:/x"`,
the debounce timer firing and a successful two-folder response satisfies the
invariant. -/
theorem C1_witness :
    ActiveInv (step (.response "C:/x" (.success 200 (some ⟨true, "", some ["a", "b"]⟩)))
      (step .timerFire (step (.inputChange "C:/x") (step .focusGained (initField ""))))) :=
  C1_active_invariant _
    (.next _ (.next _ (.next _ (.next _ (.init "")))))

/-- C2 counterexample: after focus, typing `"C:/x"`, the timer firing (the
request goes out) and then blur (a dismissal that clears `items` and hides
the overlay), a late-arriving successful response still overwrites `items`
with the response's entries — the suggestions state is repopulated, refuting
the claim that the result is discarded. -/
theorem C2_counterexample :
    (run [.focusGained, .inputChange "C:/x", .timerFire, .blurEvent,
          .response "C:/x" (.success 200 (some ⟨true, "", some ["y"]⟩))]
       (initField "")).items = [⟨"y", "C:/x/y"⟩] := by
  decide

/-- C2 (amended): a listing response arriving when the field no longer has
input focus (after blur or an outside click that moved focus away) never
shows the overlay — the dropdown display stays off — although the internal
`items` array is still overwritten with whatever `fetchChildren` computes
for the response. -/
theorem C2_unfocused_response_hidden (st : FieldState) (reqText : String)
    (resp : ListDirResponse) (h : st.focused = false) :
    (step (.response reqText resp) st).display = false ∧
    (step (.response reqText resp) st).items = (fetchChildren reqText resp false).1 := by
  obtain ⟨items, heq⟩ := fetchChildren_eq reqText resp false
  simp only [step, h]
  rw [heq]
  simp

/-- C2 witness: a blurred state receiving a one-folder response keeps the
overlay hidden. -/
theorem C2_witness :
    (step (.response "a" (.success 200 (some ⟨true, "", some ["b"]⟩)))
       ⟨[], -1, false, false, false, "a", "a"⟩).display = false ∧
    (step (.response "a" (.success 200 (some ⟨true, "", some ["b"]⟩)))
       ⟨[], -1, false, false, false, "a", "a"⟩).items =
      (fetchChildren "a" (.success 200 (some ⟨true, "", some ["b"]⟩)) false).1 :=
  C2_unfocused_response_hidden ⟨[], -1, false, false, false, "a", "a"⟩ "a"
    (.success 200 (some ⟨true, "", some ["b"]⟩)) rfl

/-- C6 counterexample: from a state with a pending debounce timer and a
visible two-entry dropdown, the Escape branch clears the list and hides the
overlay but leaves the timer pending (`timerPending` stays `true`) — the
Escape branch contains no `clearTimeout`, refuting the claim that Escape
synchronously cancels any pending debounce timer. -/
theorem C6_counterexample :
    (step .escapeKey ⟨[⟨"y", "/a/y"⟩], 0, true, true, true, "/a", "/a"⟩).timerPending
      = true ∧
    (step .escapeKey ⟨[⟨"y", "/a/y"⟩], 0, true, true, true, "/a", "/a"⟩).items = [] := by
  decide

/-- C6 (amended): blur synchronously cancels any pending debounce timer and
clears the list, the highlight and the overlay; the Escape branch (which
runs under the guard that the dropdown is shown and the list non-empty)
clears the list, the highlight and the overlay but leaves any pending
debounce timer armed; and neither aborts the network transfer — a response
arriving after blur is still processed by the `fetchChildren`
continuation. -/
theorem C6_blur_escape_dismiss (st : FieldState)
    (h : st.display = true ∧ st.items ≠ []) :
    (step .blurEvent st).timerPending = false ∧
    (step .blurEvent st).items = [] ∧
    (step .blurEvent st).active = -1 ∧
    (step .blurEvent st).display = false ∧
    (step .escapeKey st).items = [] ∧
    (step .escapeKey st).active = -1 ∧
    (step .escapeKey st).display = false ∧
    (step .escapeKey st).timerPending = st.timerPending ∧
    (∀ reqText resp, step (.response reqText resp) (step .blurEvent st) =
      { step .blurEvent st with
          items := (fetchChildren reqText resp false).1,
          active := (fetchChildren reqText resp false).2.1,
          display := (fetchChildren reqText resp false).2.2 }) :=
  ⟨rfl, rfl, rfl, rfl,
   by simp only [step, if_pos h],
   by simp only [step, if_pos h],
   by simp only [step, if_pos h],
   by simp only [step, if_pos h],
   fun reqText resp => rfl⟩

/-- C6 witness: a concrete visible state with a pending timer — blur clears
the timer, Escape clears the list but keeps the timer. -/
theorem C6_witness :
    (step .blurEvent ⟨[⟨"y", "/a/y"⟩], 0, true, true, true, "/a", "/a"⟩).timerPending
      = false ∧
    (step .escapeKey ⟨[⟨"y", "/a/y"⟩], 0, true, true, true, "/a", "/a"⟩).items = [] ∧
    (step .escapeKey ⟨[⟨"y", "/a/y"⟩], 0, true, true, true, "/a", "/a"⟩).timerPending
      = (⟨[⟨"y", "/a/y"⟩], 0, true, true, true, "/a", "/a"⟩ : FieldState).timerPending :=
  ⟨(C6_blur_escape_dismiss _ (by decide)).1,
   (C6_blur_escape_dismiss _ (by decide)).2.2.2.2.1,
   (C6_blur_escape_dismiss _ (by decide)).2.2.2.2.2.2.2.1⟩

/-- Timer-pool model of the debounce in `scheduleFetch`:
`if (debounceTimer) clearTimeout(debounceTimer); debounceTimer = setTimeout(fetchChildren, 180)`.
`handle` is the stored `debounceTimer`, `fresh` the next unused timer id,
`live` the ids of timers that are armed and neither cleared nor fired, and
`fired` records, in order, the input text each `fetchChildren` invocation
read when its timer fired. -/
structure SchedState where
  text : String
  handle : Option Nat
  fresh : Nat
  live : List Nat
  fired : List String
deriving DecidableEq, Repr

/-- Scheduler events: the input text changing, `scheduleFetch()` running, and
a timer with a given id firing (a no-op unless that timer is still live —
`clearTimeout` prevents a cleared timer from ever firing). -/
inductive SchedEvent where
  | setText (s : String)
  | scheduleFetch
  | fire (id : Nat)
deriving DecidableEq, Repr

/-- One scheduler step.  `scheduleFetch` first clears the stored handle (if
any) and then arms a fresh timer; `fire id` runs `fetchChildren` — recording
the current text — only if `id` is still live. -/
def schedStep (e : SchedEvent) (st : SchedState) : SchedState :=
  match e with
  | .setText s => { st with text := s }
  | .scheduleFetch =>
    let cleared := match st.handle with
      | some h => st.live.erase h
      | none => st.live
    { st with live := cleared ++ [st.fresh], handle := some st.fresh,
              fresh := st.fresh + 1 }
  | .fire id =>
    if id ∈ st.live then
      { st with live := st.live.erase id, fired := st.fired ++ [st.text] }
    else st

/-- At most one debounce timer is ever live, and it is the stored handle. -/
def SchedInv (st : SchedState) : Prop :=
  st.live = [] ∨ ∃ h, st.handle = some h ∧ st.live = [h]

theorem schedStep_scheduleFetch_live (st : SchedState) (hinv : SchedInv st) :
    (schedStep .scheduleFetch st).live = [st.fresh] := by
  simp only [schedStep]
  rcases hinv with h1 | ⟨h0, hh, hl⟩
  · rw [h1]
    cases st.handle <;> simp
  · rw [hh, hl]
    simp

theorem schedStep_preserves_inv (e : SchedEvent) (st : SchedState)
    (hinv : SchedInv st) : SchedInv (schedStep e st) := by
  cases e with
  | setText s => exact hinv
  | scheduleFetch =>
    right
    exact ⟨st.fresh, rfl, schedStep_scheduleFetch_live st hinv⟩
  | fire id =>
    simp only [schedStep]
    split
    · next hmem =>
      rcases hinv with h1 | ⟨h0, hh, hl⟩
      · rw [h1] at hmem
        simp at hmem
      · left
        simp only [hl]
        rw [hl] at hmem
        simp only [List.mem_singleton] at hmem
        rw [hmem]
        simp
    · exact hinv

theorem schedStep_fire_mem (id : Nat) (st : SchedState) (h : id ∈ st.live) :
    schedStep (.fire id) st =
      { st with live := st.live.erase id, fired := st.fired ++ [st.text] } := by
  simp only [schedStep, if_pos h]

theorem schedStep_fire_not_mem (id : Nat) (st : SchedState) (h : id ∉ st.live) :
    schedStep (.fire id) st = st := by
  simp only [schedStep, if_neg h]

/-- C5: running `scheduleFetch()` twice (with the final text set in between
and no timer firing in the window) leaves exactly one live timer — the
newest — whose firing performs exactly one `fetchChildren`, reading the
final pending text; any other timer id (in particular the first, cancelled
one) can no longer fire. -/
theorem C5_debounce (st : SchedState) (t : String) (hinv : SchedInv st) :
    (schedStep .scheduleFetch (schedStep (.setText t)
       (schedStep .scheduleFetch st))).live = [st.fresh + 1] ∧
    (schedStep .scheduleFetch (schedStep (.setText t)
       (schedStep .scheduleFetch st))).text = t ∧
    (schedStep (.fire (st.fresh + 1)) (schedStep .scheduleFetch
       (schedStep (.setText t) (schedStep .scheduleFetch st)))).fired
      = st.fired ++ [t] ∧
    (∀ id, id ≠ st.fresh + 1 →
      schedStep (.fire id) (schedStep .scheduleFetch (schedStep (.setText t)
        (schedStep .scheduleFetch st)))
        = schedStep .scheduleFetch (schedStep (.setText t)
            (schedStep .scheduleFetch st))) := by
  have h1 : (schedStep .scheduleFetch st).live = [st.fresh] :=
    schedStep_scheduleFetch_live st hinv
  have h2 : (schedStep .scheduleFetch (schedStep (.setText t)
      (schedStep .scheduleFetch st))).live = [st.fresh + 1] := by
    have : SchedInv (schedStep (.setText t) (schedStep .scheduleFetch st)) :=
      schedStep_preserves_inv _ _ (schedStep_preserves_inv _ _ hinv)
    exact schedStep_scheduleFetch_live _ this
  refine ⟨h2, rfl, ?_, ?_⟩
  · rw [schedStep_fire_mem _ _ (by rw [h2]; simp)]
    exact rfl
  · intro id hid
    exact schedStep_fire_not_mem _ _ (by rw [h2]; simp [hid])

/-- C5 witness: from a fresh scheduler, schedule, set the text to `"b"`,
schedule again: one live timer (id 1), firing it records exactly `["b"]`,
and the cancelled timer 0 firing is a no-op. -/
theorem C5_witness :
    (schedStep .scheduleFetch (schedStep (.setText "b")
       (schedStep .scheduleFetch ⟨"a", none, 0, [], []⟩))).live = [1] ∧
    (schedStep .scheduleFetch (schedStep (.setText "b")
       (schedStep .scheduleFetch ⟨"a", none, 0, [], []⟩))).text = "b" ∧
    (schedStep (.fire 1) (schedStep .scheduleFetch (schedStep (.setText "b")
       (schedStep .scheduleFetch ⟨"a", none, 0, [], []⟩)))).fired = [] ++ ["b"] ∧
    (∀ id, id ≠ 1 →
      schedStep (.fire id) (schedStep .scheduleFetch (schedStep (.setText "b")
        (schedStep .scheduleFetch ⟨"a", none, 0, [], []⟩)))
        = schedStep .scheduleFetch (schedStep (.setText "b")
            (schedStep .scheduleFetch ⟨"a", none, 0, [], []⟩))) :=
  C5_debounce ⟨"a", none, 0, [], []⟩ "b" (Or.inl rfl)

/-- What the `destInput` "focus" handler of the Aria2/HF-hub copies leaves
behind: the field text, the persisted property, the delay of the debounce
timer it armed (50ms for the seeded prefetch, 180ms for `scheduleFetch()`),
and whether the root request (`/az/listdir` with no `path` argument) was
issued. -/
structure FocusOutcome where
  text : String
  prop : String
  delayMs : Nat
  rootRequested : Bool
deriving DecidableEq, Repr

/-- The `destInput` "focus" handler: if the trimmed text is empty it fetches
the default root (no `path` argument); when the body has a truthy `ok` and a
truthy `root`, and the persisted property is still unset when the response
arrives, it seeds text and property with the backslash-normalized root and
arms a 50ms `fetchChildren` timer and returns; every other path falls
through to `scheduleFetch()` (180ms).  With non-empty text no root request
is made and `scheduleFetch()` runs directly. -/
def destInputOnFocus (text prop : String) (resp : ListDirResponse) : FocusOutcome :=
  if jsTrim text = "" then
    match resp with
    | .success _ (some d) =>
      if d.ok = true ∧ d.root ≠ "" then
        if prop = "" then
          let root := normalizePath d.root
          ⟨root, root, 50, true⟩
        else ⟨text, prop, 180, true⟩
      else ⟨text, prop, 180, true⟩
    | _ => ⟨text, prop, 180, true⟩
  else ⟨text, prop, 180, false⟩

/-- C9: with non-empty text the focus handler schedules a lookup for the
current text directly and issues no root request; with empty text it issues
the root request and, when the response is ok with a root, seeds the field
and the property with that (backslash-normalized) root and schedules the
child lookup only if the property is still unset — otherwise it leaves text
and property alone and schedules a normal lookup. -/
theorem C9_focus_behavior (text prop : String) (resp : ListDirResponse) :
    (jsTrim text ≠ "" → destInputOnFocus text prop resp = ⟨text, prop, 180, false⟩) ∧
    (jsTrim text = "" →
      (destInputOnFocus text prop resp).rootRequested = true ∧
      (∀ status d, resp = .success status (some d) → d.ok = true → d.root ≠ "" →
        (prop = "" → destInputOnFocus text prop resp =
            ⟨normalizePath d.root, normalizePath d.root, 50, true⟩) ∧
        (prop ≠ "" → destInputOnFocus text prop resp = ⟨text, prop, 180, true⟩))) := by
  by_cases ht : jsTrim text = ""
  · refine ⟨fun hne => absurd ht hne, fun _ => ⟨?_, ?_⟩⟩
    · simp only [destInputOnFocus, if_pos ht]
      cases resp with
      | fetchError => rfl
      | success status data =>
        cases data with
        | none => rfl
        | some d =>
          by_cases hc : d.ok = true ∧ d.root ≠ ""
          · simp only [if_pos hc]
            by_cases hp : prop = ""
            · simp only [if_pos hp]
            · simp only [if_neg hp]
          · simp only [if_neg hc]
    · intro status d hresp hok hroot
      subst hresp
      constructor
      · intro hp
        simp only [destInputOnFocus, if_pos ht, if_pos (And.intro hok hroot), if_pos hp]
      · intro hp
        simp only [destInputOnFocus, if_pos ht, if_pos (And.intro hok hroot), if_neg hp]
  · refine ⟨fun _ => ?_, fun he => absurd he ht⟩
    simp only [destInputOnFocus, if_neg ht]

/-- C9 witness (the spec's scenario): focus on an empty field with no
persisted path and a response with `root: "/srv/app"` seeds text and
property with `"/srv/app"` and schedules the child lookup. -/
theorem C9_witness :
    destInputOnFocus "" "" (.success 200 (some ⟨true, "/srv/app", some []⟩)) =
      ⟨normalizePath "/srv/app", normalizePath "/srv/app", 50, true⟩ :=
  (((C9_focus_behavior "" "" (.success 200 (some ⟨true, "/srv/app", some []⟩))).2
      rfl).2 200 ⟨true, "/srv/app", some []⟩ rfl rfl (by decide)).1 rfl

/-- Models `base.endsWith("/")`: the last character is a forward slash. -/
def endsWithSlash (s : String) : Bool :=
  s.data.getLast? == some '/'

/-- The PathUploader copy's `joinPath(base, seg)`: both parts are
backslash-normalized; an empty part yields the other; a base with a trailing
slash is concatenated directly, otherwise a single `"/"` is inserted. -/
def joinPath (base seg : String) : String :=
  let base := normalizePath base
  let seg := normalizePath seg
  if base = "" then seg
  else if seg = "" then base
  else if endsWithSlash base then base ++ seg
  else base ++ "/" ++ seg

/-- The PathUploader copy's keydown Enter branch: it runs whenever `items`
is non-empty (the display guard falls through for a non-empty list), picks
`items[(active >= 0) ? active : 0]`, sets text and the persisted property to
the chosen entry's backslash-normalized path, clears the list and the
highlight, hides the dropdown and arms a new debounce timer
(`scheduleFetch()`).  `items[idx]` out of range would throw in JS; that
branch returns the state unchanged and is unreachable for `active = -1`. -/
def puEnterKeydown (st : FieldState) : FieldState :=
  if st.items = [] then st
  else
    let idx := if 0 ≤ st.active then st.active.toNat else 0
    match st.items.get? idx with
    | some it =>
      let chosen := normalizePath it.path
      { st with text := chosen, prop := chosen, items := [], active := -1,
                display := false, timerPending := true }
    | none => st

/-- C10: in the PathUploader copy, pressing Enter with a non-empty
suggestion list but no highlighted suggestion (`active = -1`) selects the
first entry: text and persisted property become its normalized path, the
list is cleared, the dropdown hidden, and a new lookup is scheduled. -/
theorem C10_enter_selects_first (st : FieldState) (it : Entry) (rest : List Entry)
    (hitems : st.items = it :: rest) (hactive : st.active = -1) :
    puEnterKeydown st =
      { st with text := normalizePath it.path, prop := normalizePath it.path,
                items := [], active := -1, display := false, timerPending := true } := by
  unfold puEnterKeydown
  rw [if_neg (by rw [hitems]; exact List.cons_ne_nil it rest)]
  have hcond : ¬ (0 ≤ st.active) := by rw [hactive]; decide
  simp only [if_neg hcond, hitems, List.get?_cons_zero]

/-- C10 witness: Enter on a two-entry list (paths built with the copy's
`joinPath`) with no highlight selects the first entry, `"/r/a"`. -/
theorem C10_witness :
    puEnterKeydown ⟨[⟨"a", joinPath "/r" "a"⟩, ⟨"b", joinPath "/r" "b"⟩],
        -1, false, false, true, "/r", "/r"⟩
      = ⟨[], -1, false, true, true, "/r/a", "/r/a"⟩ := by
  rw [C10_enter_selects_first _ ⟨"a", joinPath "/r" "a"⟩ [⟨"b", joinPath "/r" "b"⟩]
    rfl rfl]
  decide
